import Mathlib

/-!
Verification of the client-side interaction layer of RadProc-Django-Stateless.

The development shallowly embeds the two JavaScript sources that carry the
logic under scrutiny:

* `interfaz/static/js/config.js` — the loose list parser `parseToArrayLoose`,
  the modal list editor (`applyEditor`), and the submit-time normalization of
  the two hidden list fields (`meas_order`, `target_list`);
* `interfaz/static/js/index.js` (consolidated handler set) — the selection
  guard (`habilitarCargaSiHayTipo`), the fetch-based submit flow with its
  precondition checks, `Content-Disposition` filename extraction and
  try/catch/finally structure, and the "Limpiar" reset handler.

Browser builtins used by that code (`JSON.parse`, `JSON.stringify`,
`String.prototype.trim/split`, the `filename="..."` regular expression) are
modelled below as executable Lean functions; the DOM side effects of each
handler are modelled as an explicit event trace or state transformer.
-/

namespace RadProc

/-- Model of a JavaScript JSON value as produced by `JSON.parse`. A numeric
literal is kept as its source spelling, which is all the code under study
ever observes of it (it only ever coerces parsed values back to strings). -/
inductive Json where
  | null
  | bool (b : Bool)
  | num (lit : String)
  | str (s : String)
  | arr (elems : List Json)
  | obj (fields : List (String × Json))

/-- JSON insignificant whitespace, as accepted between tokens by `JSON.parse`. -/
def isJsonWs (c : Char) : Bool :=
  c = ' ' || c = '\t' || c = '\n' || c = '\r'

/-- Drop leading JSON whitespace. -/
def skipWs (l : List Char) : List Char :=
  l.dropWhile isJsonWs

/-- Value of one hexadecimal digit, as in a `\uXXXX` string escape. -/
def hexVal (c : Char) : Option Nat :=
  if '0' ≤ c ∧ c ≤ '9' then some (c.toNat - '0'.toNat)
  else if 'a' ≤ c ∧ c ≤ 'f' then some (c.toNat - 'a'.toNat + 10)
  else if 'A' ≤ c ∧ c ≤ 'F' then some (c.toNat - 'A'.toNat + 10)
  else none

/-- Character denoted by a short JSON string escape `\c`. -/
def unescapeChar (c : Char) : Option Char :=
  if c = '"' then some '"'
  else if c = '\\' then some '\\'
  else if c = '/' then some '/'
  else if c = 'b' then some '\x08'
  else if c = 'f' then some '\x0c'
  else if c = 'n' then some '\n'
  else if c = 'r' then some '\r'
  else if c = 't' then some '\t'
  else none

/-- Parse the body of a JSON string (the part after the opening quote) up to
and including the closing quote, returning the decoded characters and the
remaining input. Raw control characters are rejected, as `JSON.parse` does. -/
def parseStringBody : List Char → Option (List Char × List Char)
  | [] => none
  | '"' :: rest => some ([], rest)
  | '\\' :: 'u' :: h1 :: h2 :: h3 :: h4 :: rest =>
    match hexVal h1, hexVal h2, hexVal h3, hexVal h4 with
    | some a, some b, some c, some d =>
      match parseStringBody rest with
      | some (cs, r) => some (Char.ofNat (((a * 16 + b) * 16 + c) * 16 + d) :: cs, r)
      | none => none
    | _, _, _, _ => none
  | '\\' :: e :: rest =>
    match unescapeChar e with
    | some u =>
      match parseStringBody rest with
      | some (cs, r) => some (u :: cs, r)
      | none => none
    | none => none
  | ['\\'] => none
  | c :: rest =>
    if c.toNat < 32 then none
    else
      match parseStringBody rest with
      | some (cs, r) => some (c :: cs, r)
      | none => none

/-- Longest prefix of decimal digits together with the rest of the input. -/
def digitSpan (l : List Char) : List Char × List Char :=
  (l.takeWhile Char.isDigit, l.dropWhile Char.isDigit)

/-- Integer part of a JSON number: `0`, or a nonzero digit followed by digits. -/
def parseIntPart : List Char → Option (List Char × List Char)
  | '0' :: rest => some (['0'], rest)
  | c :: rest =>
    if c.isDigit then
      let (ds, r) := digitSpan rest
      some (c :: ds, r)
    else none
  | [] => none

/-- Optional fractional part `.digits` of a JSON number. -/
def parseFracPart (l : List Char) : Option (List Char × List Char) :=
  match l with
  | '.' :: rest =>
    let (ds, r) := digitSpan rest
    if ds = [] then none else some ('.' :: ds, r)
  | _ => some ([], l)

/-- Optional exponent part of a JSON number. -/
def parseExpPart (l : List Char) : Option (List Char × List Char) :=
  match l with
  | c :: rest =>
    if c = 'e' ∨ c = 'E' then
      let (sgn, r1) :=
        match rest with
        | s :: r => if s = '+' ∨ s = '-' then ([s], r) else (([] : List Char), s :: r)
        | [] => ([], [])
      let (ds, r2) := digitSpan r1
      if ds = [] then none else some (c :: (sgn ++ ds), r2)
    else some ([], l)
  | [] => some ([], l)

/-- Parse one JSON numeric literal, returning its source spelling. -/
def parseNumber (l : List Char) : Option (String × List Char) :=
  let (neg, l1) :=
    match l with
    | '-' :: r => (true, r)
    | _ => (false, l)
  match parseIntPart l1 with
  | none => none
  | some (ip, r1) =>
    match parseFracPart r1 with
    | none => none
    | some (fp, r2) =>
      match parseExpPart r2 with
      | none => none
      | some (ep, r3) =>
        some (⟨(if neg then ['-'] else []) ++ ip ++ fp ++ ep⟩, r3)

/-- Intermediate result of the JSON parser: a value, a nonempty array tail, or
a nonempty object tail. -/
inductive PRes where
  | v (j : Json)
  | es (l : List Json)
  | ms (l : List (String × Json))

/-- Which production the JSON parser is currently reading. -/
inductive PMode where
  | val
  | elems
  | members

/-- Fuel-driven recursive-descent JSON parser. `PMode.val` reads one value;
`PMode.elems` reads the elements of a nonempty array up to the closing
bracket; `PMode.members` likewise for object members. The fuel only bounds
recursion depth over array and object structure, and the top-level entry
point supplies enough fuel for every input it is given. -/
def parseF : Nat → PMode → List Char → Option (PRes × List Char)
  | 0, _, _ => none
  | fuel + 1, PMode.val, l =>
    match l with
    | [] => none
    | c :: rest =>
      if c = '"' then
        match parseStringBody rest with
        | some (cs, r) => some (.v (.str ⟨cs⟩), r)
        | none => none
      else if c = '[' then
        match skipWs rest with
        | ']' :: r2 => some (.v (.arr []), r2)
        | r1 =>
          match parseF fuel PMode.elems r1 with
          | some (.es vs, r) => some (.v (.arr vs), r)
          | _ => none
      else if c = '{' then
        match skipWs rest with
        | '}' :: r2 => some (.v (.obj []), r2)
        | r1 =>
          match parseF fuel PMode.members r1 with
          | some (.ms ms, r) => some (.v (.obj ms), r)
          | _ => none
      else if c = 't' then
        match rest with
        | 'r' :: 'u' :: 'e' :: r => some (.v (.bool true), r)
        | _ => none
      else if c = 'f' then
        match rest with
        | 'a' :: 'l' :: 's' :: 'e' :: r => some (.v (.bool false), r)
        | _ => none
      else if c = 'n' then
        match rest with
        | 'u' :: 'l' :: 'l' :: r => some (.v .null, r)
        | _ => none
      else
        match parseNumber (c :: rest) with
        | some (lit, r) => some (.v (.num lit), r)
        | none => none
  | fuel + 1, PMode.elems, l =>
    match parseF fuel PMode.val (skipWs l) with
    | some (.v v, r) =>
      (match skipWs r with
       | ',' :: r2 =>
         (match parseF fuel PMode.elems r2 with
          | some (.es vs, r3) => some (.es (v :: vs), r3)
          | _ => none)
       | ']' :: r2 => some (.es [v], r2)
       | _ => none)
    | _ => none
  | fuel + 1, PMode.members, l =>
    match skipWs l with
    | '"' :: r0 =>
      (match parseStringBody r0 with
       | some (kcs, r1) =>
         (match skipWs r1 with
          | ':' :: r2 =>
            (match parseF fuel PMode.val (skipWs r2) with
             | some (.v v, r3) =>
               (match skipWs r3 with
                | ',' :: r4 =>
                  (match parseF fuel PMode.members r4 with
                   | some (.ms ms, r5) => some (.ms ((⟨kcs⟩, v) :: ms), r5)
                   | _ => none)
                | '}' :: r4 => some (.ms [(⟨kcs⟩, v)], r4)
                | _ => none)
             | _ => none)
          | _ => none)
       | none => none)
    | _ => none

/-- Model of `JSON.parse`: parse one value surrounded by optional whitespace,
requiring the whole input to be consumed; `none` models a thrown
`SyntaxError`. -/
def Json.parse (s : String) : Option Json :=
  match parseF (s.length + 1) PMode.val (skipWs s.data) with
  | some (.v v, r) => if skipWs r = [] then some v else none
  | _ => none

mutual

/-- Model of the JavaScript `String(x)` coercion on a parsed JSON value:
strings are themselves, `null`/booleans print their keyword, a number prints
its literal, an array joins its elements' coercions with commas
(`Array.prototype.toString`), and a plain object prints `[object Object]`. -/
def jsToString : Json → String
  | .null => "null"
  | .bool b => cond b "true" "false"
  | .num lit => lit
  | .str s => s
  | .arr xs => String.intercalate "," (arrElemStrings xs)
  | .obj _ => "[object Object]"

/-- Element strings used by the array join: inside `Array.prototype.join`, a
`null` element contributes the empty string rather than `"null"`. -/
def arrElemStrings : List Json → List String
  | [] => []
  | .null :: vs => "" :: arrElemStrings vs
  | v :: vs => jsToString v :: arrElemStrings vs

end

/-- Hexadecimal digit character used by `JSON.stringify` unicode escapes. -/
def hexDigitChar (n : Nat) : Char :=
  if n < 10 then Char.ofNat ('0'.toNat + n) else Char.ofNat ('a'.toNat + n - 10)

/-- Escape one character the way `JSON.stringify` quotes string contents:
quote and backslash get a backslash escape, the five short control escapes
are used where they exist, any other control character becomes `\u00XX`, and
everything else is emitted verbatim. -/
def escapeChar (ch : Char) : List Char :=
  if ch = '"' then ['\\', '"']
  else if ch = '\\' then ['\\', '\\']
  else if ch = '\x08' then ['\\', 'b']
  else if ch = '\t' then ['\\', 't']
  else if ch = '\n' then ['\\', 'n']
  else if ch = '\x0c' then ['\\', 'f']
  else if ch = '\r' then ['\\', 'r']
  else if ch.toNat < 32 then
    ['\\', 'u', '0', '0', hexDigitChar (ch.toNat / 16), hexDigitChar (ch.toNat % 16)]
  else [ch]

/-- Escape a whole string body for `JSON.stringify`. -/
def escapeBody : List Char → List Char
  | [] => []
  | c :: cs => escapeChar c ++ escapeBody cs

/-- Characters of one double-quoted serialized string. -/
def quotedChars (s : String) : List Char :=
  '"' :: (escapeBody s.data ++ ['"'])

/-- Characters of the comma-separated serialized elements of a string array. -/
def serElemsChars : List String → List Char
  | [] => []
  | [s] => quotedChars s
  | s :: rest => quotedChars s ++ ',' :: serElemsChars rest

/-- Model of `JSON.stringify` applied to an array of strings (the only shape
the code under study ever serializes): compact output, no added whitespace. -/
def stringifyStrArr (l : List String) : String :=
  ⟨'[' :: (serElemsChars l ++ [']'])⟩

/-- Whitespace as trimmed by `String.prototype.trim`. The model covers the
ASCII whitespace the repository's data can contain. -/
def jsIsWs (c : Char) : Bool :=
  c = ' ' || c = '\t' || c = '\n' || c = '\r'

/-- Trim both ends of a character list. -/
def trimChars (l : List Char) : List Char :=
  ((l.dropWhile jsIsWs).reverse.dropWhile jsIsWs).reverse

/-- Model of `String.prototype.trim`. -/
def jsTrim (s : String) : String :=
  ⟨trimChars s.data⟩

/-- Split a character list at every comma; a list with no comma yields one
piece, and adjacent commas yield empty pieces, as `split(",")` does. -/
def splitCommaChars : List Char → List (List Char)
  | [] => [[]]
  | ',' :: rest => [] :: splitCommaChars rest
  | c :: rest =>
    match splitCommaChars rest with
    | p :: ps => (c :: p) :: ps
    | [] => [[c]]

/-- Model of `String.prototype.split` with separator `","`. -/
def jsSplitComma (s : String) : List String :=
  (splitCommaChars s.data).map (fun l => ⟨l⟩)

/-- Whether a character list starts with the given character. -/
def headIs (c : Char) : List Char → Bool
  | x :: _ => x = c
  | [] => false

/-- Whether a character list ends with the given character. -/
def lastIs (c : Char) (l : List Char) : Bool :=
  headIs c l.reverse

/-- Quote characters recognized by the replacement regular expression
in `config.js` line 82. -/
def isQuoteChar (c : Char) : Bool :=
  c = '"' || c = '\''

/-- Strip one leading and one trailing quote character (single or double),
each independently, as the replacement `/^['"]|['"]$/g` does in `config.js`
line 82: a lone quote character is consumed by the leading alternative and
leaves the empty string. -/
def stripQuotes1 (s : String) : String :=
  let l := s.data
  let l1 := if headIs '"' l || headIs '\'' l then l.tail else l
  let l2 := if lastIs '"' l1 || lastIs '\'' l1 then l1.dropLast else l1
  ⟨l2⟩

/-- Embedding of `parseToArrayLoose` (`config.js` lines 72-83): first attempt
`JSON.parse`; if it yields an array, coerce every element with `String`;
otherwise trim the text, strip one matching layer of square brackets (the
`slice(1, -1)` applied when the trimmed text both starts with `[` and ends
with `]`), split on commas, trim each token, drop empty tokens (the
`filter(Boolean)`), and finally strip one layer of surrounding quote
characters from each remaining token. -/
def parseToArrayLoose (text : String) : List String :=
  match Json.parse text with
  | some (.arr xs) => xs.map jsToString
  | _ =>
    let t := trimChars text.data
    let t2 := if headIs '[' t && lastIs ']' t then t.tail.dropLast else t
    let parts := ((splitCommaChars t2).map trimChars).filter (fun l => l ≠ [])
    parts.map (fun l => stripQuotes1 ⟨l⟩)

/-- Embedding of the per-field normalization in the `formConfig` submit
handler (`config.js` lines 157-169): if the raw value parses as a JSON array,
re-serialize it with every element coerced to text; otherwise serialize the
permissive parse of the raw value. -/
def normalizeListField (raw : String) : String :=
  match Json.parse raw with
  | some (.arr xs) => stringifyStrArr (xs.map jsToString)
  | _ => stringifyStrArr (parseToArrayLoose raw)

/-- Embedding of the `formConfig` submit handler, which normalizes both
list-bearing hidden fields (`meas_order` and `target_list`) in turn. -/
def formConfigSubmit (measOrder targetList : String) : String × String :=
  (normalizeListField measOrder, normalizeListField targetList)

/-- Lowercasing as done by `String.prototype.toLowerCase` on the ASCII data
this repository handles. -/
def jsToLower (s : String) : String :=
  ⟨s.data.map Char.toLower⟩

/-- State of the list-editor modal of `config.js`, restricted to what
`applyEditor` reads and writes: the field being edited, the editor text, the
inline feedback element, whether the modal is open, and the hidden field's
current value. -/
structure EditorState where
  currentField : String
  editorText : String
  feedbackClass : String
  feedbackText : String
  modalOpen : Bool
  hiddenValue : String
deriving DecidableEq

/-- Vocabulary allowed for the measurement-order field (`config.js` line 124). -/
def allowedMeasValues : List String :=
  ["spectralon", "target", "cielo"]

/-- Embedding of `applyEditor` (`config.js` lines 115-134): reject an empty
parse with an inline error; for the `meas_order` field reject any element
whose lowercasing is outside the allowed vocabulary; otherwise write the
canonical serialization into the hidden field and close the modal. -/
def applyEditor (st : EditorState) : EditorState :=
  let arr := parseToArrayLoose st.editorText
  if arr = [] then
    { st with feedbackClass := "mt-2 small text-danger",
              feedbackText := "Ingresá al menos un valor (coma-separado o JSON)." }
  else if st.currentField = "meas_order" ∧
      ¬ (arr.all fun v => allowedMeasValues.contains (jsToLower v)) then
    { st with feedbackClass := "mt-2 small text-danger",
              feedbackText := "Solo se permiten valores: \"spectralon\", \"target\", \"cielo\"." }
  else
    { st with hiddenValue := stringifyStrArr arr, modalOpen := false }

/-- Case-insensitive match of a lowercase pattern against the head of the
input, as the `i` flag gives the literal part of a regular expression. -/
def ciMatchesAt : List Char → List Char → Bool
  | [], _ => true
  | _ :: _, [] => false
  | p :: ps, c :: cs => if c.toLower = p then ciMatchesAt ps cs else false

/-- Literal characters of the pattern `filename="` from `index.js` line 451. -/
def filenamePattern : List Char :=
  ['f', 'i', 'l', 'e', 'n', 'a', 'm', 'e', '=', '"']

/-- Attempt to match `filename="([^"]+)"` at the current position: the
literal prefix case-insensitively, then at least one non-quote character,
then a closing quote; the capture is the run of non-quote characters. -/
def tryCapture (l : List Char) : Option String :=
  if ciMatchesAt filenamePattern l then
    let rest := l.drop 10
    let tok := rest.takeWhile fun c => c ≠ '"'
    match rest.dropWhile (fun c => c ≠ '"') with
    | _ :: _ => if tok = [] then none else some ⟨tok⟩
    | [] => none
  else none

/-- First match of `/filename="([^"]+)"/i` in the input, scanning left to
right as a regular-expression search does. -/
def findFilename : List Char → Option String
  | [] => none
  | c :: cs =>
    match tryCapture (c :: cs) with
    | some v => some v
    | none => findFilename cs

/-- Embedding of the filename extraction of `index.js` lines 450-452: read
the `Content-Disposition` header (empty when absent), take the first
`filename="..."` capture, and fall back to the fixed default name. -/
def extractFilename (dispo : Option String) : String :=
  match findFilename (dispo.getD "").data with
  | some v => v
  | none => "resultados.zip"

/-- Outcome of the submission exchange as observed by the `formDatos` submit
handler: a non-success HTTP status (with the best-effort body text, `none`
when reading it failed), a success response carrying an optional
`Content-Disposition` header (with whether the completion-sound callback is
registered), a transport failure of the request itself, or an exception
thrown mid-flow after a success status (for example while reading the body). -/
inductive ExchangeOutcome where
  | httpError (status : Nat) (body : Option String)
  | success (dispo : Option String) (soundRegistered : Bool)
  | netFail (err : String)
  | midFail (err : String)
deriving DecidableEq

/-- Observable actions of the `formDatos` submit handler, in order. -/
inductive Ev where
  | toast (msg : String)
  | setLabelRequerido (msg : String)
  | setProcesando (flag : Bool)
  | log (msg : String)
  | fetch
  | download (name : String)
  | sound
deriving DecidableEq

/-- Embedding of the `formDatos` submit handler (`index.js` lines 411-470,
consolidated version): the two precondition checks in order, then the
in-flight marking, the request, the per-outcome branch of the
try/catch — including the explicit `setProcesando(false)` inside the non-ok
branch — and the `finally` step that always appends one more
`setProcesando(false)`. -/
def submitHandler (tipoValue : String) (fileCount : Nat) (o : ExchangeOutcome) : List Ev :=
  if tipoValue = "" then
    [Ev.toast "⚠️ Selecciona un tipo de medición antes de procesar."]
  else if fileCount = 0 then
    [Ev.toast "⚠️ Debes seleccionar un archivo ZIP antes de procesar.",
     Ev.setLabelRequerido "Debes seleccionar un archivo ZIP."]
  else
    [Ev.setProcesando true, Ev.log "⏳ Iniciando procesamiento…", Ev.fetch] ++
    (match o with
     | .httpError st body =>
       [Ev.log (jsTrim ("❌ Error del servidor (" ++ toString st ++ "). " ++ body.getD "")),
        Ev.setProcesando false]
     | .success dispo sound =>
       [Ev.download (extractFilename dispo),
        Ev.log "✅ Procesamiento completado. Descarga iniciada."] ++
       (if sound then [Ev.sound] else [])
     | .netFail err => [Ev.log ("❌ Error de red o del cliente: " ++ err)]
     | .midFail err => [Ev.log ("❌ Error de red o del cliente: " ++ err)]) ++
    [Ev.setProcesando false]

/-- Visible controls the submit handler mutates. -/
structure SubmitUI where
  btnDisabled : Bool
  btnLabel : String
  formOpacity75 : Bool
  nombreHtml : String
  logLines : List String
deriving DecidableEq

/-- HTML written into the status label by `setNombreArchivoRequerido`
(`index.js` lines 293-296). -/
def spanWarning (msg : String) : String :=
  "<span class=\"text-warning\">⚠️ " ++ msg ++ "</span>"

/-- Effect of one handler action on the visible controls; `setProcesando`
either disables the submit control with the working label or re-enables it
and restores the label, exactly as `index.js` lines 271-282. -/
def applyEv (st : SubmitUI) : Ev → SubmitUI
  | .setProcesando true =>
    { st with btnDisabled := true, btnLabel := "Procesando…", formOpacity75 := true }
  | .setProcesando false =>
    { st with btnDisabled := false, btnLabel := "Procesar y descargar", formOpacity75 := false }
  | .setLabelRequerido msg => { st with nombreHtml := spanWarning msg }
  | .log m => { st with logLines := st.logLines ++ [m] }
  | _ => st

/-- Run the submit handler's actions over the visible controls. -/
def runSubmit (st : SubmitUI) (evs : List Ev) : SubmitUI :=
  evs.foldl applyEv st

/-- Number of times a trace re-enables the submit control. -/
def countReenable (evs : List Ev) : Nat :=
  (evs.filter fun e => e = Ev.setProcesando false).length

/-- Controls touched by the selection guard of `index.js`. -/
structure IndexUI where
  tipoValue : String
  hiddenValue : String
  colorClasses : List String
  inputDisabled : Bool
  btnDisabled : Bool
deriving DecidableEq

/-- Embedding of `habilitarCargaSiHayTipo` (`index.js` lines 298-302): the
file picker and the submit control are disabled exactly when the
measurement-type value is empty. -/
def habilitarCargaSiHayTipo (st : IndexUI) : IndexUI :=
  let hayTipo := st.tipoValue ≠ ""
  { st with inputDisabled := ¬ hayTipo, btnDisabled := ¬ hayTipo }

/-- Embedding of `aplicarColorSelect` (`index.js` lines 304-309): remove both
styling classes, then re-add the one matching the lowercased value when it is
`agua` or `suelo`. -/
def aplicarColorSelect (st : IndexUI) : IndexUI :=
  let v := jsToLower st.tipoValue
  { st with colorClasses := if v = "agua" ∨ v = "suelo" then [v] else [] }

/-- Initial-load recomputation (`index.js` lines 312-314): mirror the type
into the hidden field, restyle, then run the selection guard. -/
def initialLoad (tipo : String) : IndexUI :=
  habilitarCargaSiHayTipo (aplicarColorSelect
    { tipoValue := tipo, hiddenValue := tipo, colorClasses := [],
      inputDisabled := false, btnDisabled := false })

/-- Embedding of the `tipoSelect` change handler (`index.js` lines 332-348):
the select now holds `v`; mirror it into the hidden field, restyle, then run
the selection guard. -/
def tipoChangeHandler (st : IndexUI) (v : String) : IndexUI :=
  habilitarCargaSiHayTipo (aplicarColorSelect
    { st with tipoValue := v, hiddenValue := v })

/-- Client-side reset steps of the `formLimpiar` submit handler
(`index.js` lines 495-517), in source order. -/
inductive ResetStep where
  | clearStorage
  | resetTipo
  | clearZipInput
  | resetNombreLabel
  | clearLog
  | resetSpectralon
deriving DecidableEq

/-- Source order of the reset steps inside the single `try` block. -/
def resetSequence : List ResetStep :=
  [.clearStorage, .resetTipo, .clearZipInput, .resetNombreLabel, .clearLog, .resetSpectralon]

/-- Run steps until one throws: everything inside the one `try` block before
the failing step executes; the first failure jumps to `catch`, so nothing
after it runs, and the boolean records whether the `catch` logged a console
warning. -/
def runResetSteps (steps : List ResetStep) (fails : ResetStep → Bool) :
    List ResetStep × Bool :=
  match steps with
  | [] => ([], false)
  | s :: rest =>
    if fails s then ([], true)
    else
      let (e, w) := runResetSteps rest fails
      (s :: e, w)

/-- Result of the `formLimpiar` submit handler: which reset steps ran,
whether the catch block logged to the console, and whether the underlying
form submission proceeds (it always does — the handler never calls
`preventDefault`). -/
structure LimpiarResult where
  executed : List ResetStep
  consoleWarned : Bool
  submissionProceeds : Bool
deriving DecidableEq

/-- Embedding of the `formLimpiar` submit handler (`index.js` lines 495-519). -/
def limpiarHandler (fails : ResetStep → Bool) : LimpiarResult :=
  let (e, w) := runResetSteps resetSequence fails
  { executed := e, consoleWarned := w, submissionProceeds := true }

/-- Fallback pipeline written the way the specification's sentence orders the
steps, for comparison with the code's `parseToArrayLoose`: strip one layer of
bracket characters if present, split on commas, trim each token, strip a
single layer of surrounding quote characters from each token, and drop empty
tokens. -/
def specOrderFallback (text : String) : List String :=
  let t := if headIs '[' text.data && lastIs ']' text.data then text.data.tail.dropLast
           else text.data
  ((((splitCommaChars t).map trimChars).map fun l => stripQuotes1 ⟨l⟩).filter
    fun s => s ≠ "")

/-- Fallback pipeline in the order the code actually performs the steps,
stated with the same named steps as `specOrderFallback`: trim the whole
text, strip one matching layer of brackets, split on commas, trim each
token, drop empty tokens, and only then strip one layer of surrounding
quote characters from each remaining token. -/
def codeOrderFallback (text : String) : List String :=
  let t := trimChars text.data
  let t2 := if headIs '[' t && lastIs ']' t then t.tail.dropLast else t
  (((splitCommaChars t2).map trimChars).filter fun l => l ≠ []).map
    fun l => stripQuotes1 ⟨l⟩

theorem hexVal_hexDigitChar : ∀ m < 16, hexVal (hexDigitChar m) = some m := by decide

theorem parseStringBody_escapeChar (c : Char) (tail : List Char) :
    parseStringBody (escapeChar c ++ tail) =
      (parseStringBody tail).map fun p => (c :: p.1, p.2) := by
  by_cases h1 : c = '"'
  · subst h1
    simp [escapeChar, parseStringBody, unescapeChar]
    cases parseStringBody tail <;> rfl
  by_cases h2 : c = '\\'
  · subst h2
    simp [escapeChar, parseStringBody, unescapeChar]
    cases parseStringBody tail <;> rfl
  by_cases h3 : c = '\x08'
  · subst h3
    simp [escapeChar, parseStringBody, unescapeChar]
    cases parseStringBody tail <;> rfl
  by_cases h4 : c = '\t'
  · subst h4
    simp [escapeChar, parseStringBody, unescapeChar]
    cases parseStringBody tail <;> rfl
  by_cases h5 : c = '\n'
  · subst h5
    simp [escapeChar, parseStringBody, unescapeChar]
    cases parseStringBody tail <;> rfl
  by_cases h6 : c = '\x0c'
  · subst h6
    simp [escapeChar, parseStringBody, unescapeChar]
    cases parseStringBody tail <;> rfl
  by_cases h7 : c = '\r'
  · subst h7
    simp [escapeChar, parseStringBody, unescapeChar]
    cases parseStringBody tail <;> rfl
  by_cases h8 : c.toNat < 32
  · have hd1 : hexVal (hexDigitChar (c.toNat / 16)) = some (c.toNat / 16) :=
      hexVal_hexDigitChar _ (by omega)
    have hd2 : hexVal (hexDigitChar (c.toNat % 16)) = some (c.toNat % 16) :=
      hexVal_hexDigitChar _ (by omega)
    have harith : ((0 * 16 + 0) * 16 + c.toNat / 16) * 16 + c.toNat % 16 = c.toNat := by
      omega
    have h0 : hexVal '0' = some 0 := by decide
    simp only [escapeChar, h1, h2, h3, h4, h5, h6, h7, h8, if_true, if_false,
      ite_true, ite_false, if_pos, if_neg, List.cons_append, List.nil_append]
    simp [parseStringBody, h0, hd1, hd2, harith]
    cases parseStringBody tail <;> simp
    rw [show c.toNat / 16 * 16 + c.toNat % 16 = c.toNat from by omega, Char.ofNat_toNat]
  · simp only [escapeChar, h1, h2, h3, h4, h5, h6, h7, h8, ite_false, List.cons_append,
      List.nil_append, ite_true]
    simp [parseStringBody, h1, h2, h8]
    cases parseStringBody tail <;> simp

theorem parseStringBody_escapeBody : ∀ (cs rest : List Char),
    parseStringBody (escapeBody cs ++ '"' :: rest) = some (cs, rest)
  | [], rest => by simp [escapeBody, parseStringBody]
  | c :: cs, rest => by
    rw [escapeBody, List.append_assoc, parseStringBody_escapeChar,
      parseStringBody_escapeBody cs rest]
    rfl

theorem parseF_val_quoted (f : Nat) (s : String) (tail : List Char) :
    parseF (f + 1) PMode.val (quotedChars s ++ tail) = some (.v (.str s), tail) := by
  have h : quotedChars s ++ tail = '"' :: (escapeBody s.data ++ '"' :: tail) := by
    simp [quotedChars]
  rw [h]
  simp [parseF, parseStringBody_escapeBody]

theorem serElemsChars_cons (s : String) (l : List String) :
    ∃ t, serElemsChars (s :: l) = '"' :: t := by
  cases l <;> simp [serElemsChars, quotedChars]

theorem length_le_serElemsChars : ∀ l : List String, l.length ≤ (serElemsChars l).length
  | [] => by simp [serElemsChars]
  | [s] => by simp [serElemsChars, quotedChars]
  | s :: s2 :: l => by
    have ih := length_le_serElemsChars (s2 :: l)
    have hq : 2 ≤ (quotedChars s).length := by simp [quotedChars]
    simp only [serElemsChars, List.length_append, List.length_cons]
    simp only [List.length_cons] at ih
    omega

theorem parseF_elems_ser : ∀ (l : List String) (fuel : Nat) (rest : List Char),
    l ≠ [] → l.length + 1 ≤ fuel + 1 →
    parseF (fuel + 1) PMode.elems (serElemsChars l ++ ']' :: rest) =
      some (.es (l.map Json.str), rest)
  | [], _, _, h, _ => absurd rfl h
  | [s], fuel, rest, _, hf => by
    simp only [List.length_cons, List.length_nil] at hf
    obtain ⟨f, rfl⟩ : ∃ f, fuel = f + 1 := ⟨fuel - 1, by omega⟩
    have hskip : skipWs (quotedChars s ++ ']' :: rest) = quotedChars s ++ ']' :: rest := by
      simp [quotedChars, skipWs, isJsonWs]
    simp only [serElemsChars]
    rw [parseF, hskip, parseF_val_quoted]
    have hsk2 : skipWs (']' :: rest) = ']' :: rest := by simp [skipWs, isJsonWs]
    simp [hsk2]
  | s :: s2 :: l, fuel, rest, _, hf => by
    simp only [List.length_cons] at hf
    obtain ⟨f, rfl⟩ : ∃ f, fuel = f + 1 := ⟨fuel - 1, by omega⟩
    have hassoc : serElemsChars (s :: s2 :: l) ++ ']' :: rest
        = quotedChars s ++ (',' :: (serElemsChars (s2 :: l) ++ ']' :: rest)) := by
      simp [serElemsChars]
    rw [hassoc, parseF]
    have hskip : skipWs (quotedChars s ++ (',' :: (serElemsChars (s2 :: l) ++ ']' :: rest)))
        = quotedChars s ++ (',' :: (serElemsChars (s2 :: l) ++ ']' :: rest)) := by
      simp [quotedChars, skipWs, isJsonWs]
    rw [hskip, parseF_val_quoted]
    have hsk2 : skipWs (',' :: (serElemsChars (s2 :: l) ++ ']' :: rest))
        = ',' :: (serElemsChars (s2 :: l) ++ ']' :: rest) := by
      simp [skipWs, isJsonWs]
    have hrec := parseF_elems_ser (s2 :: l) f rest (by simp)
      (by simp only [List.length_cons]; omega)
    simp only [hsk2]
    simp [hrec]

theorem parseF_val_bracket (fuel : Nat) (rest : List Char) :
    parseF (fuel + 1) PMode.val ('[' :: rest) =
      (match skipWs rest with
       | ']' :: r2 => some (.v (.arr []), r2)
       | r1 =>
         (match parseF fuel PMode.elems r1 with
          | some (.es vs, r) => some (.v (.arr vs), r)
          | _ => none)) := by
  rfl

theorem Json_parse_stringifyStrArr (l : List String) :
    Json.parse (stringifyStrArr l) = some (Json.arr (l.map Json.str)) := by
  cases l with
  | nil => rfl
  | cons s l' =>
    obtain ⟨t, ht⟩ := serElemsChars_cons s l'
    have hle := length_le_serElemsChars (s :: l')
    have hlen : (stringifyStrArr (s :: l')).length = (serElemsChars (s :: l')).length + 2 := by
      simp [stringifyStrArr, String.length]
    have hdata : (stringifyStrArr (s :: l')).data
        = '[' :: (serElemsChars (s :: l') ++ [']']) := rfl
    have hrec := parseF_elems_ser (s :: l') ((serElemsChars (s :: l')).length + 1) []
      (by simp) (by simp only [List.length_cons] at *; omega)
    have hrec' : parseF ((serElemsChars (s :: l')).length + 2) PMode.elems
        (serElemsChars (s :: l') ++ [']'])
        = some (.es ((s :: l').map Json.str), []) := hrec
    have hs0 : skipWs ('[' :: (serElemsChars (s :: l') ++ [']']))
        = '[' :: (serElemsChars (s :: l') ++ [']']) := by
      simp [skipWs, isJsonWs]
    have hsk : skipWs (serElemsChars (s :: l') ++ [']'])
        = serElemsChars (s :: l') ++ [']'] := by
      rw [ht]; simp [skipWs, isJsonWs]
    unfold Json.parse
    rw [hdata, hlen, hs0]
    rw [show (serElemsChars (s :: l')).length + 2 + 1
        = ((serElemsChars (s :: l')).length + 2) + 1 from rfl]
    rw [parseF_val_bracket]
    rw [ht] at hrec' hsk ⊢
    simp only [List.cons_append, List.nil_append, List.length_cons] at hrec' hsk ⊢
    rw [hsk]
    simp [hrec', skipWs, isJsonWs]


theorem normalizeListField_spec (raw : String) :
    (∀ xs, Json.parse raw = some (Json.arr xs) →
      normalizeListField raw = stringifyStrArr (xs.map jsToString)) ∧
    ((∀ xs, Json.parse raw ≠ some (Json.arr xs)) →
      normalizeListField raw = stringifyStrArr (parseToArrayLoose raw)) ∧
    ∃ l : List String, Json.parse (normalizeListField raw) = some (Json.arr (l.map Json.str)) := by
  refine ⟨?_, ?_, ?_⟩
  · intro xs hxs
    simp [normalizeListField, hxs]
  · intro hno
    unfold normalizeListField
    split
    · next xs hxs => exact absurd hxs (hno xs)
    · rfl
  · unfold normalizeListField
    split
    · exact ⟨_, Json_parse_stringifyStrArr _⟩
    · exact ⟨_, Json_parse_stringifyStrArr _⟩

/-- C5: the permissive list parse applied to the structured text and applied
to the comma-separated text yields the identical normalized sequence of
strings. -/
theorem parseToArrayLoose_json_comma_agree :
    parseToArrayLoose "[\"a\",\"b\",\"c\"]" = ["a", "b", "c"] ∧
    parseToArrayLoose "a, b, c" = ["a", "b", "c"] := by
  constructor
  · have h : Json.parse "[\"a\",\"b\",\"c\"]" =
        some (.arr [.str "a", .str "b", .str "c"]) := by rfl
    simp [parseToArrayLoose, h, jsToString]
  · rfl

/-- C10: the permissive parse of the canonical serialization of any array of
strings returns the identical array, and re-normalizing an
already-normalized field value is the identity. -/
theorem parseToArrayLoose_stringify_roundtrip (l : List String) :
    parseToArrayLoose (stringifyStrArr l) = l ∧
    normalizeListField (stringifyStrArr l) = stringifyStrArr l := by
  have h := Json_parse_stringifyStrArr l
  have hmap : (l.map Json.str).map jsToString = l := by
    simp only [List.map_map]
    have : jsToString ∘ Json.str = id := by
      funext s
      simp [jsToString]
    simp [this]
  exact ⟨by simp [parseToArrayLoose, h, hmap], by simp [normalizeListField, h, hmap]⟩

/-- C3: on every submission of the settings form, each of the two
list-bearing hidden fields is normalized — a raw value that parses as a
structured array is re-serialized with every element coerced to text, any
other raw value is replaced by the serialization of its permissive parse —
and consequently each field afterwards holds valid structured-array JSON
text denoting an array of strings. -/
theorem formConfig_normalizes_fields (m t : String) :
    (∀ xs, Json.parse m = some (Json.arr xs) →
      (formConfigSubmit m t).1 = stringifyStrArr (xs.map jsToString)) ∧
    ((∀ xs, Json.parse m ≠ some (Json.arr xs)) →
      (formConfigSubmit m t).1 = stringifyStrArr (parseToArrayLoose m)) ∧
    (∃ l : List String,
      Json.parse (formConfigSubmit m t).1 = some (Json.arr (l.map Json.str))) ∧
    (∀ xs, Json.parse t = some (Json.arr xs) →
      (formConfigSubmit m t).2 = stringifyStrArr (xs.map jsToString)) ∧
    ((∀ xs, Json.parse t ≠ some (Json.arr xs)) →
      (formConfigSubmit m t).2 = stringifyStrArr (parseToArrayLoose t)) ∧
    (∃ l : List String,
      Json.parse (formConfigSubmit m t).2 = some (Json.arr (l.map Json.str))) := by
  obtain ⟨h1, h2, h3⟩ := normalizeListField_spec m
  obtain ⟨g1, g2, g3⟩ := normalizeListField_spec t
  exact ⟨h1, h2, h3, g1, g2, g3⟩

/-- Witness for C3 at concrete inputs: a field holding non-string JSON array
text is re-serialized with elements coerced to text, and a comma-separated
field ends as valid structured-array JSON. -/
theorem formConfig_normalizes_fields_witness :
    (formConfigSubmit "[1, true]" "a, b").1 = stringifyStrArr ["1", "true"] ∧
    (∃ l : List String,
      Json.parse (formConfigSubmit "[1, true]" "a, b").2 =
        some (Json.arr (l.map Json.str))) := by
  constructor
  · have h := (formConfig_normalizes_fields "[1, true]" "a, b").1
      [.num "1", .bool true] (by rfl)
    simpa [jsToString] using h
  · exact (formConfig_normalizes_fields "[1, true]" "a, b").2.2.2.2.2

/-- C6 counterexample: on the one-character text made of a single double
quote the strict parse fails, the code's permissive parse yields a list
containing the empty string (empty tokens are dropped before quote
stripping, so stripping can still create an empty element), and the
specification's step order yields the empty list instead. -/
theorem loose_fallback_counterexample :
    Json.parse "\"" = none ∧
    parseToArrayLoose "\"" = [""] ∧
    specOrderFallback "\"" = [] ∧
    parseToArrayLoose "\"" ≠ specOrderFallback "\"" ∧
    "" ∈ parseToArrayLoose "\"" := by
  refine ⟨rfl, rfl, rfl, ?_, ?_⟩
  · intro h
    rw [show parseToArrayLoose "\"" = [""] from rfl,
      show specOrderFallback "\"" = [] from rfl] at h
    cases h
  · rw [show parseToArrayLoose "\"" = [""] from rfl]
    exact List.mem_singleton.mpr rfl

/-- C6 amended: whenever the strict structured-array parse does not yield an
array, the permissive parse equals the steps in the order the code performs
them — trim the whole text, strip one matching layer of brackets, split on
commas, trim each token, drop empty tokens, and only then strip one layer of
surrounding quote characters from each remaining token (so an element may be
the empty string when a token consisted solely of quote characters). -/
theorem loose_fallback_amended (s : String)
    (h : ∀ xs, Json.parse s ≠ some (Json.arr xs)) :
    parseToArrayLoose s = codeOrderFallback s := by
  unfold parseToArrayLoose codeOrderFallback
  split
  · next xs hxs => exact absurd hxs (h xs)
  · rfl

/-- Witness for the amended C6 at the counterexample input. -/
theorem loose_fallback_amended_witness :
    parseToArrayLoose "\"" = codeOrderFallback "\"" :=
  loose_fallback_amended "\"" (by intro xs h; cases h)

/-- C4: an editor text whose permissive parse is empty is rejected with the
blocking inline error and only the feedback element changes (the hidden
field and the modal are untouched); a measurement-order text whose parse
contains an element outside the allowed vocabulary (case-insensitively) is
rejected with the blocking inline error naming the allowed set, again
leaving the hidden field and the modal untouched. -/
theorem applyEditor_rejections (st : EditorState) :
    (parseToArrayLoose st.editorText = [] →
      applyEditor st = { st with
                         feedbackClass := "mt-2 small text-danger",
                         feedbackText := "Ingresá al menos un valor (coma-separado o JSON)." }) ∧
    (st.currentField = "meas_order" →
      ∀ v ∈ parseToArrayLoose st.editorText,
        allowedMeasValues.contains (jsToLower v) = false →
        applyEditor st = { st with
                           feedbackClass := "mt-2 small text-danger",
                           feedbackText := "Solo se permiten valores: \"spectralon\", \"target\", \"cielo\"." }) := by
  constructor
  · intro h
    simp [applyEditor, h]
  · intro hf v hv hbad
    have hne : parseToArrayLoose st.editorText ≠ [] := List.ne_nil_of_mem hv
    have hnotmem : jsToLower v ∉ allowedMeasValues := by simpa using hbad
    have hnot2 : ¬ (∀ x ∈ parseToArrayLoose st.editorText, jsToLower x ∈ allowedMeasValues) :=
      fun hall => hnotmem (hall v hv)
    simp [applyEditor, hne, hf, hnot2]

/-- Witness for C4: an empty editor list and a measurement-order list with a
value outside the vocabulary are both rejected, leaving the hidden field and
the open modal unchanged. -/
theorem applyEditor_rejections_witness :
    (applyEditor ⟨"target_list", "[]", "", "", true, "[\"M1\"]"⟩).hiddenValue = "[\"M1\"]" ∧
    (applyEditor ⟨"target_list", "[]", "", "", true, "[\"M1\"]"⟩).modalOpen = true ∧
    (applyEditor ⟨"target_list", "[]", "", "", true, "[\"M1\"]"⟩).feedbackText =
      "Ingresá al menos un valor (coma-separado o JSON)." ∧
    (applyEditor ⟨"meas_order", "[\"spectralon\",\"bogus\"]", "", "", true, "keep"⟩).hiddenValue
      = "keep" ∧
    (applyEditor ⟨"meas_order", "[\"spectralon\",\"bogus\"]", "", "", true, "keep"⟩).modalOpen
      = true ∧
    (applyEditor ⟨"meas_order", "[\"spectralon\",\"bogus\"]", "", "", true, "keep"⟩).feedbackText
      = "Solo se permiten valores: \"spectralon\", \"target\", \"cielo\"." := by
  have h1 := (applyEditor_rejections ⟨"target_list", "[]", "", "", true, "[\"M1\"]"⟩).1 (by rfl)
  have hparse : parseToArrayLoose "[\"spectralon\",\"bogus\"]" = ["spectralon", "bogus"] := by
    have hp : Json.parse "[\"spectralon\",\"bogus\"]" =
        some (.arr [.str "spectralon", .str "bogus"]) := by rfl
    simp [parseToArrayLoose, hp, jsToString]
  have h2 := (applyEditor_rejections
      ⟨"meas_order", "[\"spectralon\",\"bogus\"]", "", "", true, "keep"⟩).2 rfl "bogus"
    (by rw [hparse]; exact List.mem_cons_of_mem _ (List.mem_singleton.mpr rfl)) (by rfl)
  rw [h1, h2]
  exact ⟨rfl, rfl, rfl, rfl, rfl, rfl⟩

/-- C9: after the selection-guard recomputation — on initial load and on
every measurement-type change — the file picker and the submit control are
enabled exactly when the measurement-type value is non-empty, and both are
disabled whenever it is empty. -/
theorem selection_guard_iff (tipo : String) (st : IndexUI) (v : String) :
    ((initialLoad tipo).inputDisabled = false ∧ (initialLoad tipo).btnDisabled = false ↔
      tipo ≠ "") ∧
    (tipo = "" →
      (initialLoad tipo).inputDisabled = true ∧ (initialLoad tipo).btnDisabled = true) ∧
    ((tipoChangeHandler st v).inputDisabled = false ∧
      (tipoChangeHandler st v).btnDisabled = false ↔ v ≠ "") ∧
    (v = "" →
      (tipoChangeHandler st v).inputDisabled = true ∧
      (tipoChangeHandler st v).btnDisabled = true) := by
  refine ⟨?_, ?_, ?_, ?_⟩ <;>
    simp [initialLoad, tipoChangeHandler, habilitarCargaSiHayTipo, aplicarColorSelect]

/-- Witness for C9: with a chosen type both controls are enabled; changing
the type to empty disables both. -/
theorem selection_guard_iff_witness :
    (initialLoad "agua").inputDisabled = false ∧ (initialLoad "agua").btnDisabled = false ∧
    (tipoChangeHandler (initialLoad "agua") "").inputDisabled = true ∧
    (tipoChangeHandler (initialLoad "agua") "").btnDisabled = true := by
  obtain ⟨hi, _, _, hc⟩ := selection_guard_iff "agua" (initialLoad "agua") ""
  obtain ⟨e1, e2⟩ := hi.mpr (by decide)
  obtain ⟨d1, d2⟩ := hc rfl
  exact ⟨e1, e2, d1, d2⟩

/-- C2: a submission with an empty measurement type is blocked with only the
type warning and issues no request; a submission with a chosen type but no
file issues no request, warns, and sets the status label to the re-select
message; the request is issued exactly when both preconditions hold, and the
two checks happen in that order. -/
theorem submit_preconditions (tipo : String) (files : Nat) (o : ExchangeOutcome) :
    (tipo = "" → submitHandler tipo files o =
      [Ev.toast "⚠️ Selecciona un tipo de medición antes de procesar."]) ∧
    (tipo ≠ "" → files = 0 → submitHandler tipo files o =
      [Ev.toast "⚠️ Debes seleccionar un archivo ZIP antes de procesar.",
       Ev.setLabelRequerido "Debes seleccionar un archivo ZIP."]) ∧
    (Ev.fetch ∈ submitHandler tipo files o ↔ tipo ≠ "" ∧ files ≠ 0) := by
  refine ⟨?_, ?_, ?_⟩
  · intro h
    simp [submitHandler, h]
  · intro h hf
    simp [submitHandler, h, hf]
  · by_cases h : tipo = ""
    · simp [submitHandler, h]
    · by_cases hf : files = 0
      · simp [submitHandler, h, hf]
      · simp [submitHandler, h, hf]

/-- Witness for C2 at concrete inputs: empty type, and chosen type with no
file. -/
theorem submit_preconditions_witness :
    submitHandler "" 0 (.netFail "boom") =
      [Ev.toast "⚠️ Selecciona un tipo de medición antes de procesar."] ∧
    submitHandler "agua" 0 (.netFail "boom") =
      [Ev.toast "⚠️ Debes seleccionar un archivo ZIP antes de procesar.",
       Ev.setLabelRequerido "Debes seleccionar un archivo ZIP."] ∧
    Ev.fetch ∉ submitHandler "agua" 0 (.netFail "boom") :=
  ⟨(submit_preconditions "" 0 (.netFail "boom")).1 rfl,
   (submit_preconditions "agua" 0 (.netFail "boom")).2.1 (by decide) rfl,
   fun hmem => by
    have := ((submit_preconditions "agua" 0 (.netFail "boom")).2.2.mp hmem).2
    exact this rfl⟩

/-- C8 counterexample: when the first reset step (clearing ephemeral
storage) throws, none of the later reset steps runs — resetting the
measurement-type control in particular is prevented — even though the
underlying form submission still proceeds. -/
theorem limpiar_counterexample :
    (limpiarHandler fun s => s == ResetStep.clearStorage).executed = [] ∧
    ResetStep.resetTipo ∉ (limpiarHandler fun s => s == ResetStep.clearStorage).executed ∧
    (limpiarHandler fun s => s == ResetStep.clearStorage).submissionProceeds = true := by
  refine ⟨rfl, ?_, rfl⟩
  rw [show (limpiarHandler fun s => s == ResetStep.clearStorage).executed = [] from rfl]
  exact List.not_mem_nil _

theorem runResetSteps_eq (steps : List ResetStep) (fails : ResetStep → Bool) :
    runResetSteps steps fails = (steps.takeWhile (fun s => ! fails s), steps.any fails) := by
  induction steps with
  | nil => rfl
  | cons s rest ih =>
    by_cases h : fails s <;> simp [runResetSteps, h, ih, List.takeWhile_cons]

/-- C8 amended: the reset steps run inside one try block, so a failing step
skips every later step — exactly the failure-free prefix executes — while
the exception is caught (logged to the console only when some step fails)
and the underlying form submission always proceeds. -/
theorem limpiar_amended (fails : ResetStep → Bool) :
    (limpiarHandler fails).submissionProceeds = true ∧
    (limpiarHandler fails).executed = resetSequence.takeWhile (fun s => ! fails s) ∧
    (limpiarHandler fails).consoleWarned = resetSequence.any fails := by
  simp [limpiarHandler, runResetSteps_eq]

/-- C1 counterexample: for a server-error outcome the submit control is
re-enabled twice — once by the explicit restore inside the non-ok branch and
once more by the finalization step — not exactly once as claimed. -/
theorem submit_reenable_twice_counterexample :
    countReenable (submitHandler "agua" 1 (.httpError 500 (some "boom"))) = 2 := by
  rfl

/-- C1 amended: after every exchange outcome — success, non-success status,
transport failure, or an exception thrown mid-flow — the handler's trace
ends with the finalization's restore, the submit control is left enabled
with its label restored, and the restore runs at least once: exactly once on
the success, transport-failure and mid-flow-exception paths, and twice on
the non-success-status path, whose branch performs its own restore before
the finalization runs again. -/
theorem submit_finalization_amended (st : SubmitUI) (tipo : String) (files : Nat)
    (o : ExchangeOutcome) (ht : tipo ≠ "") (hf : files ≠ 0) :
    (runSubmit st (submitHandler tipo files o)).btnDisabled = false ∧
    (runSubmit st (submitHandler tipo files o)).btnLabel = "Procesar y descargar" ∧
    (runSubmit st (submitHandler tipo files o)).formOpacity75 = false ∧
    (submitHandler tipo files o).getLast? = some (Ev.setProcesando false) ∧
    1 ≤ countReenable (submitHandler tipo files o) ∧
    countReenable (submitHandler tipo files o) =
      (match o with
       | .httpError _ _ => 2
       | _ => 1) := by
  cases o with
  | httpError status body =>
    refine ⟨?_, ?_, ?_, ?_, ?_, ?_⟩ <;>
      simp [submitHandler, ht, hf, runSubmit, applyEv, countReenable, List.getLast?]
  | success dispo sound =>
    cases sound <;>
      refine ⟨?_, ?_, ?_, ?_, ?_, ?_⟩ <;>
        simp [submitHandler, ht, hf, runSubmit, applyEv, countReenable, List.getLast?]
  | netFail err =>
    refine ⟨?_, ?_, ?_, ?_, ?_, ?_⟩ <;>
      simp [submitHandler, ht, hf, runSubmit, applyEv, countReenable, List.getLast?]
  | midFail err =>
    refine ⟨?_, ?_, ?_, ?_, ?_, ?_⟩ <;>
      simp [submitHandler, ht, hf, runSubmit, applyEv, countReenable, List.getLast?]

/-- Witness for the amended C1: a transport failure re-enables the control
exactly once and leaves it enabled with its label restored. -/
theorem submit_finalization_amended_witness :
    (runSubmit ⟨true, "Procesando…", true, "", []⟩
      (submitHandler "agua" 1 (.netFail "boom"))).btnDisabled = false ∧
    (runSubmit ⟨true, "Procesando…", true, "", []⟩
      (submitHandler "agua" 1 (.netFail "boom"))).btnLabel = "Procesar y descargar" ∧
    countReenable (submitHandler "agua" 1 (.netFail "boom")) = 1 := by
  obtain ⟨h1, h2, _, _, _, h6⟩ := submit_finalization_amended
    ⟨true, "Procesando…", true, "", []⟩ "agua" 1 (.netFail "boom") (by decide) (by decide)
  exact ⟨h1, h2, h6⟩

theorem takeWhile_all_append (p : Char → Bool) :
    ∀ (xs : List Char) (y : Char) (ys : List Char),
    (∀ x ∈ xs, p x = true) → p y = false →
    (xs ++ y :: ys).takeWhile p = xs ∧ (xs ++ y :: ys).dropWhile p = y :: ys
  | [], y, ys, _, hy => by simp [List.takeWhile, List.dropWhile, hy]
  | x :: xs, y, ys, hall, hy => by
    have hx : p x = true := hall x (List.mem_cons_self x xs)
    have ih := takeWhile_all_append p xs y ys (fun z hz => hall z (List.mem_cons_of_mem x hz)) hy
    simp [List.takeWhile_cons, List.dropWhile_cons, hx, ih.1, ih.2]

theorem findFilename_skip : ∀ (pre rest : List Char),
    (∀ c ∈ pre, Char.toLower c ≠ 'f') →
    findFilename (pre ++ rest) = findFilename rest
  | [], rest, _ => rfl
  | c :: pre, rest, hpre => by
    have hc : Char.toLower c ≠ 'f' := hpre c (List.mem_cons_self c pre)
    have ih := findFilename_skip pre rest fun x hx => hpre x (List.mem_cons_of_mem c hx)
    have hcap : tryCapture (c :: (pre ++ rest)) = none := by
      simp [tryCapture, filenamePattern, ciMatchesAt, hc]
    simp [findFilename, hcap, ih]

theorem ciMatchesAt_filenamePattern (X : List Char) :
    ciMatchesAt filenamePattern (filenamePattern ++ X) = true := by
  simp [filenamePattern, ciMatchesAt]

theorem tryCapture_at_pattern (v : String) (post : List Char)
    (hv : v.data ≠ []) (hq : ∀ c ∈ v.data, c ≠ '"') :
    tryCapture (filenamePattern ++ (v.data ++ '"' :: post)) = some v := by
  have hdrop : (filenamePattern ++ (v.data ++ '"' :: post)).drop 10 = v.data ++ '"' :: post := by
    simp [filenamePattern]
  obtain ⟨htake, hdropw⟩ := takeWhile_all_append (fun c => decide (c ≠ '"'))
    v.data '"' post (fun x hx => by simpa using hq x hx) (by simp)
  simp only [tryCapture, ciMatchesAt_filenamePattern, if_true, hdrop, htake, hdropw]
  simp [hv]

theorem findFilename_cons_some (l : List Char) (v : String)
    (hne : l ≠ []) (hcap : tryCapture l = some v) : findFilename l = some v := by
  cases l with
  | nil => exact absurd rfl hne
  | cons c cs => simp [findFilename, hcap]

/-- C7: a successful exchange whose response header carries
`filename="<value>"` (a nonempty quote-free value after a prefix free of the
letter f, as in `attachment; `) triggers the download under exactly that
value; when the header is absent, or present but without a match of the
pattern, the download falls back to the fixed default name; and the success
path of the submit handler downloads under the extracted name. -/
theorem content_disposition_filename (pre v : String) (post : List Char) (h : String)
    (tipo : String) (files : Nat) (dispo : Option String) (sound : Bool)
    (hpre : ∀ c ∈ pre.data, Char.toLower c ≠ 'f')
    (hv : v ≠ "") (hq : ∀ c ∈ v.data, c ≠ '"')
    (hnone : findFilename h.data = none)
    (ht : tipo ≠ "") (hf : files ≠ 0) :
    extractFilename (some ⟨pre.data ++ filenamePattern ++ v.data ++ '"' :: post⟩) = v ∧
    extractFilename (some h) = "resultados.zip" ∧
    extractFilename none = "resultados.zip" ∧
    Ev.download (extractFilename dispo) ∈ submitHandler tipo files (.success dispo sound) := by
  refine ⟨?_, ?_, rfl, ?_⟩
  · have hvd : v.data ≠ [] := by
      intro hd
      apply hv
      cases v
      simp at hd
      simp [hd]
    have hfind : findFilename (pre.data ++ (filenamePattern ++ (v.data ++ '"' :: post)))
        = some v := by
      rw [findFilename_skip pre.data _ hpre]
      exact findFilename_cons_some _ _ (by simp [filenamePattern])
        (tryCapture_at_pattern v post hvd hq)
    simpa [extractFilename] using congrArg (fun r => match r with
      | some w => w
      | none => "resultados.zip") hfind
  · simp [extractFilename, hnone]
  · simp [submitHandler, ht, hf]

/-- Witness for C7: the header `attachment; filename="out.zip"` downloads as
`out.zip`, a missing header falls back to `resultados.zip`, and the success
trace contains that download action. -/
theorem content_disposition_filename_witness :
    extractFilename (some "attachment; filename=\"out.zip\"") = "out.zip" ∧
    extractFilename none = "resultados.zip" ∧
    Ev.download "out.zip" ∈ submitHandler "agua" 1
      (.success (some "attachment; filename=\"out.zip\"") true) := by
  have h := content_disposition_filename "attachment; " "out.zip" [] ""
    "agua" 1 (some "attachment; filename=\"out.zip\"") true
    (by decide) (by decide) (by decide) (by rfl) (by decide) (by decide)
  obtain ⟨h1, _, h3, h4⟩ := h
  have he : extractFilename (some "attachment; filename=\"out.zip\"") = "out.zip" := h1
  exact ⟨he, h3, by rw [← he]; exact h4⟩

end RadProc
